import Mathlib

/-!
A verification development for the Ledgr CSV ingestion pipeline.

JavaScript strings are modelled as lists of characters (`Str`), and the
pipeline's pure computations (CSV line parsing, fingerprinting, the
deduplicate-and-merge step, response classification for the GitHub store
client, and the upload trigger) are translated directly from the worker
source.  The durable step engine itself is platform code external to the
repository; its retry loop is modelled from the specification (§4.5).
-/

namespace Ledgr

/-- JavaScript strings are modelled as lists of characters. -/
abbrev Str := List Char

/-- Whitespace, as relevant to `String.prototype.trim` on this dataset. -/
def isWS (c : Char) : Bool := c = ' ' || c = '\t' || c = '\r' || c = '\n'

/-- Drop leading whitespace. -/
def trimLeft (s : Str) : Str := s.dropWhile isWS

/-- Drop trailing whitespace. -/
def trimRight (s : Str) : Str := (s.reverse.dropWhile isWS).reverse

/-- Model of JavaScript `s.trim()`. -/
def trim (s : Str) : Str := trimLeft (trimRight s)

/-- Model of JavaScript `s.split('\n')`: `"".split` gives `[""]`, and a
trailing separator yields a trailing empty chunk. -/
def splitLines : Str → List Str
  | [] => [[]]
  | c :: rest =>
    if c = '\n' then [] :: splitLines rest
    else
      match splitLines rest with
      | [] => [[c]]
      | l :: ls => (c :: l) :: ls

/-- Model of JavaScript `lines.join('\n')`. -/
def joinLines : List Str → Str
  | [] => []
  | [l] => l
  | l :: l' :: ls => l ++ '\n' :: joinLines (l' :: ls)

/-- The character loop of `parseCsvLine` (worker source): a quote toggles
`inQuotes`, a comma outside quotes closes the current field (trimmed), any
other character is appended to the current field; at the end the current
field is pushed trimmed.  The loop's mutable state (`fields`, `current`,
`inQuotes`) becomes the recursion's accumulator. -/
def parseAux : Str → Str → Bool → List Str
  | [], cur, _ => [trim cur]
  | c :: rest, cur, inQ =>
    if c = '"' then parseAux rest cur (!inQ)
    else if c = ',' && !inQ then trim cur :: parseAux rest [] inQ
    else parseAux rest (cur ++ [c]) inQ

/-- `parseCsvLine` from the worker source (also duplicated in the shared
data module and the dashboard parser, character for character). -/
def parseCsvLine (line : Str) : List Str := parseAux line [] false

/-- JavaScript `fields[i]` followed by `Array.prototype.join`, which renders
`undefined` as the empty string: out-of-range access yields `""`. -/
def field (fields : List Str) (i : Nat) : Str := fields.getD i []

/-- `[fields[0], fields[2], fields[4], fields[5]].join('|')` from the
workflow's `fingerprint` (Type, Started Date, Description, Amount). -/
def fingerprintFields (fields : List Str) : Str :=
  field fields 0 ++ '|' :: field fields 2 ++ '|' :: field fields 4 ++ '|' :: field fields 5

/-- The workflow's `fingerprint(line)`. -/
def fingerprint (line : Str) : Str := fingerprintFields (parseCsvLine line)

/-- Lexicographic string order on `Str`, the model of the
`fa[2].localeCompare(fb[2]) ≤ 0` comparator (the dataset's dates are ASCII
digits, dashes, colons and spaces, on which locale order is code-point
order). -/
def strLe : Str → Str → Bool
  | [], _ => true
  | _ :: _, [] => false
  | a :: as, b :: bs => if a = b then strLe as bs else decide (a < b)

/-- The merge step's sort comparator: ascending by field index 2
(Started Date). -/
def byStartedDate (a b : Str) : Bool :=
  strLe (field (parseCsvLine a) 2) (field (parseCsvLine b) 2)

/-- Model of JavaScript `whole.includes(sub)`: substring containment. -/
def includes (whole sub : Str) : Bool :=
  match whole with
  | [] => sub.isEmpty
  | c :: rest => sub.isPrefixOf (c :: rest) || includes rest sub

/-- The `validate-csv` step: header must contain `Type`, `Amount` and
`Started Date`, otherwise the step throws; on success it returns the
non-blank lines after the header. -/
def validateStep (csvData : Str) : Except Str (List Str) :=
  let lines := splitLines (trim csvData)
  let header := lines.headD []
  if !(includes header ("Type".toList))
      || !(includes header ("Amount".toList))
      || !(includes header ("Started Date".toList)) then
    .error ("Invalid CSV format. Expected Revolut statement with Type, Amount, Started Date columns.".toList)
  else
    .ok ((lines.drop 1).filter (fun l => !(trim l).isEmpty))

/-- Output of the `deduplicate-merge` step, including the step's local
arrays (`newDataLines`, `allDataLines`) used by the row counts. -/
structure MergeOut where
  csv : Str
  newDataLines : List Str
  allDataLines : List Str
  newRowCount : Nat
  totalRowCount : Nat
  sha : Option Str
deriving Repr, DecidableEq

/-- `existingCSV.content ? existingCSV.content.trim().split('\n') : []`
(the empty string is falsy). -/
def existingLinesOf (existingContent : Str) : List Str :=
  if existingContent.isEmpty then [] else splitLines (trim existingContent)

/-- `csvData.trim().split('\n')[0]` — the upload's own header line. -/
def headerOf (csvData : Str) : Str := (splitLines (trim csvData)).headD []

/-- The `deduplicate-merge` step of `CSVIngestWorkflow.run`: split the
existing store content into header and data lines, fingerprint the existing
data lines, keep only new rows whose fingerprint is absent from that set,
concatenate, sort ascending by Started Date, re-attach the header
(`existingHeader || header`) and join with a trailing newline. -/
def mergeStep (csvData : Str) (newRows : List Str) (existingContent : Str)
    (existingSha : Option Str) : MergeOut :=
  let existingLines := existingLinesOf existingContent
  let header := headerOf csvData
  let existingHeader := if existingLines.length > 0 then existingLines.headD [] else header
  let existingDataLines := existingLines.drop 1
  let existingFingerprints := existingDataLines.map fingerprint
  let newDataLines := newRows.filter
    (fun line => !(existingFingerprints.contains (fingerprint line)))
  let allDataLines := (existingDataLines ++ newDataLines).mergeSort byStartedDate
  let hdr := if existingHeader.isEmpty then header else existingHeader
  { csv := joinLines (hdr :: allDataLines) ++ ['\n']
    newDataLines := newDataLines
    allDataLines := allDataLines
    newRowCount := newDataLines.length
    totalRowCount := allDataLines.length
    sha := existingSha }

/-- JavaScript `resp.ok`: status in the inclusive range 200–299. -/
def respOk (status : Nat) : Bool := 200 ≤ status && status ≤ 299

/-- The value of a base64 alphabet character (`atob` alphabet). -/
def b64Val (c : Char) : Nat :=
  if 'A' ≤ c && c ≤ 'Z' then c.toNat - 'A'.toNat
  else if 'a' ≤ c && c ≤ 'z' then c.toNat - 'a'.toNat + 26
  else if '0' ≤ c && c ≤ '9' then c.toNat - '0'.toNat + 52
  else if c = '+' then 62
  else if c = '/' then 63
  else 0

/-- Decode base64 sextets (padding already removed) into bytes, as `atob`
does; each output byte is one character of the resulting binary string. -/
def b64Chunks : Str → Str
  | a :: b :: c :: d :: rest =>
      Char.ofNat (b64Val a * 4 + b64Val b / 16)
        :: Char.ofNat (b64Val b % 16 * 16 + b64Val c / 4)
        :: Char.ofNat (b64Val c % 4 * 64 + b64Val d)
        :: b64Chunks rest
  | [a, b, c] =>
      [Char.ofNat (b64Val a * 4 + b64Val b / 16),
       Char.ofNat (b64Val b % 16 * 16 + b64Val c / 4)]
  | [a, b] => [Char.ofNat (b64Val a * 4 + b64Val b / 16)]
  | [_] => []
  | [] => []

/-- Model of `atob`: strip `=` padding and decode 6-bit groups. -/
def decodeB64 (s : Str) : Str := b64Chunks (s.filter (fun c => c ≠ '='))

/-- A response of the GitHub contents API as seen by the fetch step:
HTTP status plus (when 2xx) the JSON body's base64 `content` and `sha`. -/
structure GithubFileResponse where
  status : Nat
  content : Str
  sha : Str
deriving Repr, DecidableEq

/-- The fetch step's successful output: decoded store content plus the
version token (`sha`), `none` when the blob does not exist. -/
structure Snapshot where
  content : Str
  sha : Option Str
deriving Repr, DecidableEq

/-- The body of the `fetch-existing` step, classified by response status:
404 returns the empty snapshot with a null sha; any other non-2xx throws
(an error the step engine will retry); a 2xx response is decoded with
`atob` after stripping newlines from the base64 payload. -/
def fetchClassify (r : GithubFileResponse) : Except Str Snapshot :=
  if r.status = 404 then .ok ⟨[], none⟩
  else if !(respOk r.status) then
    .error ("GitHub API error: ".toList ++ (toString r.status).toList)
  else .ok ⟨decodeB64 (r.content.filter (fun c => c ≠ '\n')), some r.sha⟩

/-- The body of the `commit-to-github` step, classified by response status:
`if (!resp.ok) throw` — every non-2xx status, a 409 conflict included,
throws the same kind of plain error; nothing in the step marks any status
as non-retryable. -/
def commitClassify (status : Nat) : Except Str Unit :=
  if respOk status then .ok ()
  else .error ("GitHub commit failed: ".toList ++ (toString status).toList)

/-- Modelled from the spec: the durable step engine's per-step retry loop
(§4.5, absent from the repository — it is the platform's workflow runtime).
`Attempting(n) → Succeeded`, or on failure `Attempting(n+1)` after a
backoff delay until the configured attempt budget is exhausted, at which
point the step fails with the last error.  Backoff delays are time, not
modelled.  `rs` lists the outcome each successive attempt would produce. -/
def runRetry {α : Type} : Nat → List (Except Str α) → Except Str α
  | _, [] => .error ("no attempt result".toList)
  | allowed, r :: rest =>
    match r with
    | .ok a => .ok a
    | .error e => if allowed ≤ 1 then .error e else runRetry (allowed - 1) rest

/-- Terminal status of one workflow instance. -/
inductive InstanceResult where
  | complete (newRows totalRows : Nat)
  | errored (msg : Str)
deriving Repr, DecidableEq

/-- `CSVIngestWorkflow.run`, one pass: validate, fetch (3-attempt retry
budget), pure merge, commit (3-attempt retry budget), confirm (always
succeeds, no external call).  A failed step ends the instance in
`errored`; there is no path that re-runs fetch/merge/commit after a commit
failure of any kind — a conflict gets no special handling. -/
def runPipeline (csvData : Str) (fetchResponses : List GithubFileResponse)
    (commitStatuses : List Nat) : InstanceResult :=
  match validateStep csvData with
  | .error e => .errored e
  | .ok newRows =>
    match runRetry 3 (fetchResponses.map fetchClassify) with
    | .error e => .errored e
    | .ok snap =>
      let merged := mergeStep csvData newRows snap.content snap.sha
      match runRetry 3 (commitStatuses.map commitClassify) with
      | .error e => .errored e
      | .ok _ => .complete merged.newRowCount merged.totalRowCount

/-- Result of the `POST /upload` trigger: a rejected upload creates no
workflow instance (in the source, `env.CSV_WORKFLOW.create` is reached
only on the accepted branch, and the response is produced before the
created instance runs to completion). -/
inductive UploadResponse where
  | rejected (status : Nat) (error : Str)
  | accepted (instanceId : Str) (rowCount : Nat)
deriving Repr, DecidableEq

/-- The `POST /upload` handler: `rowCount = csvData.trim().split('\n').length - 1`;
a row count below 1 is rejected with HTTP 400 `CSV is empty`, otherwise the
workflow instance is created and its opaque id is returned with the row
count. -/
def uploadHandler (csvData : Str) (instanceId : Str) : UploadResponse :=
  let lines := splitLines (trim csvData)
  let rowCount := lines.length - 1
  if rowCount < 1 then .rejected 400 ("CSV is empty".toList)
  else .accepted instanceId rowCount

/-- A parsed transaction of `parseRevolutCSV` (the dashboard parser).  The
source stores `amount`/`fee` as `parseFloat(...) || 0` numbers and
`balance` as `fields[9] ? parseFloat(fields[9]) : null`; floating-point
parsing is kept as the parsed text here (the claims about this parser
concern which lines produce a transaction, not numeric values). -/
structure RawTransaction where
  type : Str
  product : Str
  startedDate : Str
  completedDate : Str
  description : Str
  amountText : Str
  feeText : Str
  currency : Str
  state : Str
  balanceText : Option Str
deriving Repr, DecidableEq

/-- One iteration of the `parseRevolutCSV` loop: a blank line is skipped
(`if (!line) continue`), a line parsing to fewer than 10 fields is skipped
(`if (fields.length < 10) continue`), anything else yields a transaction. -/
def lineToTxn (rawLine : Str) : Option RawTransaction :=
  let line := trim rawLine
  if line.isEmpty then none
  else
    let fields := parseCsvLine line
    if fields.length < 10 then none
    else some
      { type := field fields 0
        product := field fields 1
        startedDate := field fields 2
        completedDate := field fields 3
        description := field fields 4
        amountText := field fields 5
        feeText := field fields 6
        currency := field fields 7
        state := field fields 8
        balanceText := if (field fields 9).isEmpty then none else some (field fields 9) }

/-- `parseRevolutCSV`: iterate over the lines after the header, skipping
blank and short lines, collecting transactions; the function is total —
no input line can fail the batch. -/
def parseRevolutCSV (text : Str) : List RawTransaction :=
  ((splitLines (trim text)).drop 1).filterMap lineToTxn

/-- Model of JavaScript `lines.join(',')`. -/
def joinComma : List Str → Str
  | [] => []
  | [l] => l
  | l :: l' :: ls => l ++ ',' :: joinComma (l' :: ls)

/-- Modelled from the spec: the repository has no CSV serializer (rows are
kept as their raw source lines), so the "stable re-serialization" of §4.2 /
§8 is modelled from the spec's words — fields are joined with the
delimiter, quoting any field that itself contains the delimiter. -/
def serializeRow (fields : List Str) : Str :=
  joinComma (fields.map (fun f => if f.contains ',' then '"' :: f ++ ['"'] else f))

/-! ### Lemmas about line splitting and joining -/

theorem splitLines_ne_nil (s : Str) : splitLines s ≠ [] := by
  match s with
  | [] => simp [splitLines]
  | c :: rest =>
    simp only [splitLines]
    split
    · simp
    · split <;> simp

theorem splitLines_cons_nl (rest : Str) : splitLines ('\n' :: rest) = [] :: splitLines rest := by
  simp [splitLines]

theorem splitLines_cons_ne (c : Char) (rest : Str) (h : ¬ c = '\n') :
    splitLines (c :: rest) = (c :: (splitLines rest).headD []) :: (splitLines rest).tail := by
  simp only [splitLines, if_neg h]
  match hs : splitLines rest with
  | [] => exact absurd hs (splitLines_ne_nil rest)
  | l :: ls => simp

theorem splitLines_no_newline (s : Str) : ∀ l ∈ splitLines s, '\n' ∉ l := by
  induction s with
  | nil =>
    intro l hl
    simp only [splitLines, List.mem_singleton] at hl
    simp [hl]
  | cons c rest ih =>
    intro l hl
    by_cases hc : c = '\n'
    · subst hc
      rw [splitLines_cons_nl] at hl
      rcases List.mem_cons.mp hl with rfl | hl
      · simp
      · exact ih l hl
    · rw [splitLines_cons_ne c rest hc] at hl
      rcases List.mem_cons.mp hl with rfl | hl
      · intro hmem
        rcases List.mem_cons.mp hmem with heq | hmem
        · exact hc heq.symm
        · match hs : splitLines rest with
          | [] => exact absurd hs (splitLines_ne_nil rest)
          | x :: xs =>
            rw [hs] at hmem
            exact ih x (by simp [hs]) hmem
      · match hs : splitLines rest with
        | [] => exact absurd hs (splitLines_ne_nil rest)
        | x :: xs =>
          rw [hs] at hl
          simp only [List.tail_cons] at hl
          exact ih l (by rw [hs]; exact List.mem_cons_of_mem x hl)

theorem splitLines_of_no_newline (l : Str) (h : '\n' ∉ l) : splitLines l = [l] := by
  induction l with
  | nil => rfl
  | cons c cs ih =>
    have hc : ¬ c = '\n' := fun e => h (by simp [e])
    rw [splitLines_cons_ne c cs hc, ih (fun hm => h (by simp [hm]))]
    simp

theorem splitLines_append_nl (l t : Str) (h : '\n' ∉ l) :
    splitLines (l ++ '\n' :: t) = l :: splitLines t := by
  induction l with
  | nil => simpa using splitLines_cons_nl t
  | cons c cs ih =>
    have hc : ¬ c = '\n' := fun e => h (by simp [e])
    rw [List.cons_append, splitLines_cons_ne c _ hc, ih (fun hm => h (by simp [hm]))]
    simp

theorem splitLines_joinLines : ∀ xs : List Str, xs ≠ [] → (∀ l ∈ xs, '\n' ∉ l) →
    splitLines (joinLines xs) = xs
  | [], h, _ => absurd rfl h
  | [x], _, hnl => by
    simpa [joinLines] using splitLines_of_no_newline x (hnl x (by simp))
  | x :: y :: ys, _, hnl => by
    have hx : '\n' ∉ x := hnl x (by simp)
    rw [joinLines, splitLines_append_nl x _ hx,
      splitLines_joinLines (y :: ys) (by simp) (fun l hl => hnl l (by simp [hl]))]

theorem splitLines_concat_nl (s : Str) :
    splitLines (s ++ ['\n']) = splitLines s ++ [[]] := by
  induction s with
  | nil => simp [splitLines]
  | cons c cs ih =>
    by_cases hc : c = '\n'
    · subst hc
      rw [List.cons_append, splitLines_cons_nl, splitLines_cons_nl, ih]
      simp
    · rw [List.cons_append, splitLines_cons_ne c _ hc, splitLines_cons_ne c _ hc, ih]
      match hs : splitLines cs with
      | [] => exact absurd hs (splitLines_ne_nil cs)
      | l :: ls => simp

/-! ### Lemmas about trimming -/

theorem trimRight_append_ws (s ws : Str) (h : ∀ c ∈ ws, isWS c) :
    trimRight (s ++ ws) = trimRight s := by
  unfold trimRight
  rw [List.reverse_append, List.dropWhile_append]
  have hnil : ws.reverse.dropWhile isWS = [] := by
    rw [List.dropWhile_eq_nil_iff]
    intro a ha
    exact h a (List.mem_reverse.mp ha)
  simp [hnil]

theorem trim_append_ws (s ws : Str) (h : ∀ c ∈ ws, isWS c) :
    trim (s ++ ws) = trim s := by
  unfold trim
  rw [trimRight_append_ws s ws h]

theorem trimRight_decomp (s : Str) :
    ∃ ws, s = trimRight s ++ ws ∧ ∀ c ∈ ws, isWS c := by
  refine ⟨(s.reverse.takeWhile isWS).reverse, ?_, ?_⟩
  · have h : s.reverse.takeWhile isWS ++ s.reverse.dropWhile isWS = s.reverse :=
      List.takeWhile_append_dropWhile isWS s.reverse
    have h2 := congrArg List.reverse h
    rw [List.reverse_append, List.reverse_reverse] at h2
    exact h2.symm
  · intro c hc
    exact List.mem_takeWhile_imp (List.mem_reverse.mp hc)

theorem trimRight_cons (c : Char) (s : Str) (h : ¬ isWS c = true) :
    trimRight (c :: s) = c :: trimRight s := by
  unfold trimRight
  rw [show (c :: s).reverse = s.reverse ++ [c] by simp, List.dropWhile_append]
  by_cases hs : (s.reverse.dropWhile isWS).isEmpty
  · simp [hs, List.dropWhile_cons, h, List.isEmpty_iff.mp hs]
  · simp [hs]

theorem trimLeft_cons (c : Char) (s : Str) (h : ¬ isWS c = true) :
    trimLeft (c :: s) = c :: s := by
  simp [trimLeft, List.dropWhile_cons, h]

theorem trim_cons (c : Char) (s : Str) (h : ¬ isWS c = true) :
    trim (c :: s) = c :: trimRight s := by
  unfold trim
  rw [trimRight_cons c s h, trimLeft_cons c _ h]

theorem trimRight_append_of_ne (a b : Str) (h : trimRight b ≠ []) :
    trimRight (a ++ b) = a ++ trimRight b := by
  unfold trimRight at *
  rw [List.reverse_append, List.dropWhile_append]
  have hb : ¬ (b.reverse.dropWhile isWS).isEmpty := by
    intro he
    exact h (by simp [List.isEmpty_iff.mp he])
  simp [hb]

theorem mem_of_mem_trimRight (c : Char) (s : Str) (h : c ∈ trimRight s) : c ∈ s := by
  obtain ⟨ws, hd, _⟩ := trimRight_decomp s
  rw [hd]
  exact List.mem_append_left ws h

theorem mem_of_mem_trim (c : Char) (s : Str) (h : c ∈ trim s) : c ∈ s := by
  unfold trim trimLeft at h
  exact mem_of_mem_trimRight c s ((List.dropWhile_sublist isWS).subset h)

theorem trimRight_ne_nil_of_trim (s : Str) (h : trim s ≠ []) : trimRight s ≠ [] := by
  intro he
  unfold trim at h
  rw [he] at h
  exact h rfl

/-- Apply `f` to the last element of a list only. -/
def mapLast (f : Str → Str) : List Str → List Str
  | [] => []
  | [x] => [f x]
  | x :: y :: ys => x :: mapLast f (y :: ys)

theorem length_mapLast (f : Str → Str) : ∀ xs : List Str, (mapLast f xs).length = xs.length
  | [] => rfl
  | [_] => rfl
  | x :: y :: ys => by
    rw [mapLast]
    simpa using length_mapLast f (y :: ys)

theorem map_mapLast (f g : Str → Str) (h : ∀ x, g (f x) = g x) :
    ∀ xs : List Str, (mapLast f xs).map g = xs.map g
  | [] => rfl
  | [x] => by simp [mapLast, h x]
  | x :: y :: ys => by
    rw [mapLast]
    simpa using map_mapLast f g h (y :: ys)

theorem mem_mapLast (f : Str → Str) :
    ∀ xs : List Str, ∀ l ∈ mapLast f xs, l ∈ xs ∨ ∃ y ∈ xs, l = f y
  | [], l, hl => by simp [mapLast] at hl
  | [x], l, hl => by
    simp only [mapLast, List.mem_singleton] at hl
    exact Or.inr ⟨x, by simp, hl⟩
  | x :: y :: ys, l, hl => by
    rw [mapLast] at hl
    rcases List.mem_cons.mp hl with rfl | hl
    · exact Or.inl (by simp)
    · rcases mem_mapLast f (y :: ys) l hl with h1 | ⟨z, hz, rfl⟩
      · exact Or.inl (List.mem_cons_of_mem x h1)
      · exact Or.inr ⟨z, List.mem_cons_of_mem x hz, rfl⟩

theorem mapLast_cons (f : Str → Str) (x : Str) (xs : List Str) (h : xs ≠ []) :
    mapLast f (x :: xs) = x :: mapLast f xs := by
  match xs with
  | [] => exact absurd rfl h
  | y :: ys => rw [mapLast]

theorem joinLines_cons (x : Str) (xs : List Str) (h : xs ≠ []) :
    joinLines (x :: xs) = x ++ '\n' :: joinLines xs := by
  match xs with
  | [] => exact absurd rfl h
  | y :: ys => rw [joinLines]

theorem mapLast_ne_nil (f : Str → Str) (xs : List Str) (h : xs ≠ []) :
    mapLast f xs ≠ [] := by
  match xs with
  | [x] => simp [mapLast]
  | x :: y :: ys => simp [mapLast]

theorem joinLines_ne_nil (xs : List Str) (l : Str)
    (hlast : xs.getLast? = some l) (hl : l ≠ []) : joinLines xs ≠ [] := by
  match xs with
  | [] => simp at hlast
  | [x] =>
    simp only [List.getLast?_singleton, Option.some.injEq] at hlast
    simpa [joinLines, hlast] using hl
  | x :: y :: ys =>
    rw [joinLines]
    simp

theorem getLast?_mapLast (f : Str → Str) :
    ∀ xs : List Str, (mapLast f xs).getLast? = xs.getLast?.map f
  | [] => rfl
  | [x] => rfl
  | x :: y :: ys => by
    rw [show mapLast f (x :: y :: ys) = x :: mapLast f (y :: ys) from rfl]
    have hm : mapLast f (y :: ys) ≠ [] := mapLast_ne_nil f _ (by simp)
    match he : mapLast f (y :: ys) with
    | [] => exact absurd he hm
    | z :: zs =>
      rw [List.getLast?_cons_cons, ← he, getLast?_mapLast f (y :: ys),
        List.getLast?_cons_cons]

theorem trimRight_joinLines :
    ∀ (xs : List Str) (l : Str), xs.getLast? = some l → trimRight l ≠ [] →
      trimRight (joinLines xs) = joinLines (mapLast trimRight xs)
  | [], l, hlast, _ => by simp at hlast
  | [x], l, hlast, _ => by rw [joinLines, mapLast, joinLines]
  | x :: y :: ys, l, hlast, htr => by
    rw [List.getLast?_cons_cons] at hlast
    have ih := trimRight_joinLines (y :: ys) l hlast htr
    have hlast' : (mapLast trimRight (y :: ys)).getLast? = some (trimRight l) := by
      rw [getLast?_mapLast trimRight (y :: ys), hlast, Option.map_some']
    have hjoin : trimRight (joinLines (y :: ys)) ≠ [] := by
      rw [ih]
      exact joinLines_ne_nil _ (trimRight l) hlast' htr
    rw [joinLines, show x ++ '\n' :: joinLines (y :: ys) =
      (x ++ ['\n']) ++ joinLines (y :: ys) by simp,
      trimRight_append_of_ne _ _ hjoin, ih]
    rw [show mapLast trimRight (x :: y :: ys) = x :: mapLast trimRight (y :: ys) from rfl]
    rw [joinLines_cons x _ (mapLast_ne_nil trimRight _ (by simp))]
    simp

/-! ### Lemmas about the CSV field parser -/

theorem ws_not_special (c : Char) (h : isWS c = true) : ¬ c = '"' ∧ ¬ c = ',' := by
  simp only [isWS, Bool.or_eq_true, decide_eq_true_eq] at h
  rcases h with ((rfl | rfl) | rfl) | rfl <;> exact ⟨by decide, by decide⟩

theorem parseAux_ws (ws cur : Str) (q : Bool) (h : ∀ c ∈ ws, isWS c) :
    parseAux ws cur q = [trim cur] := by
  induction ws generalizing cur with
  | nil => rfl
  | cons w rest ih =>
    obtain ⟨h1, h2⟩ := ws_not_special w (h w (by simp))
    rw [parseAux, if_neg h1, if_neg (by simp [h2])]
    rw [ih (cur ++ [w]) (fun c hc => h c (by simp [hc]))]
    rw [trim_append_ws cur [w] ?hw]
    case hw =>
      intro c hc
      simp only [List.mem_singleton] at hc
      subst hc
      exact h c (by simp)

theorem parseAux_append_ws (xs ws cur : Str) (q : Bool) (h : ∀ c ∈ ws, isWS c) :
    parseAux (xs ++ ws) cur q = parseAux xs cur q := by
  induction xs generalizing cur q with
  | nil => simpa [parseAux] using parseAux_ws ws cur q h
  | cons c rest ih =>
    rw [List.cons_append, parseAux, parseAux]
    by_cases h1 : c = '"'
    · rw [if_pos h1, if_pos h1, ih]
    · rw [if_neg h1, if_neg h1]
      by_cases h2 : (c = ',' && !q) = true
      · rw [if_pos h2, if_pos h2, ih]
      · rw [if_neg h2, if_neg h2, ih]

theorem parseCsvLine_trimRight (d : Str) : parseCsvLine (trimRight d) = parseCsvLine d := by
  obtain ⟨ws, hd, hws⟩ := trimRight_decomp d
  unfold parseCsvLine
  conv_rhs => rw [hd]
  exact (parseAux_append_ws _ _ _ _ hws).symm

theorem fingerprint_trimRight (d : Str) : fingerprint (trimRight d) = fingerprint d := by
  unfold fingerprint
  rw [parseCsvLine_trimRight]

theorem parseAux_plain (xs ys cur : Str) (q : Bool)
    (h : ∀ c ∈ xs, ¬ c = '"' ∧ ¬ c = ',') :
    parseAux (xs ++ ys) cur q = parseAux ys (cur ++ xs) q := by
  induction xs generalizing cur with
  | nil => simp
  | cons c rest ih =>
    obtain ⟨h1, h2⟩ := h c (by simp)
    rw [List.cons_append, parseAux, if_neg h1, if_neg (by simp [h2])]
    rw [ih (cur ++ [c]) (fun x hx => h x (by simp [hx]))]
    simp

theorem parseAux_quoted (xs ys cur : Str) (h : ∀ c ∈ xs, ¬ c = '"') :
    parseAux (xs ++ ys) cur true = parseAux ys (cur ++ xs) true := by
  induction xs generalizing cur with
  | nil => simp
  | cons c rest ih =>
    rw [List.cons_append, parseAux, if_neg (h c (by simp)), if_neg (by simp)]
    rw [ih (cur ++ [c]) (fun x hx => h x (by simp [hx]))]
    simp

/-! ### The sort comparator is total and transitive -/

theorem strLe_total (a b : Str) : strLe a b = true ∨ strLe b a = true := by
  induction a generalizing b with
  | nil => exact Or.inl rfl
  | cons x xs ih =>
    match b with
    | [] => exact Or.inr rfl
    | y :: ys =>
      by_cases hxy : x = y
      · subst hxy
        rw [strLe, if_pos rfl, strLe, if_pos rfl]
        exact ih ys
      · rcases lt_trichotomy x y with hlt | heq | hgt
        · exact Or.inl (by rw [strLe, if_neg hxy]; simpa using hlt)
        · exact absurd heq hxy
        · exact Or.inr (by rw [strLe, if_neg (Ne.symm hxy)]; simpa using hgt)

theorem strLe_trans (a b c : Str) (h1 : strLe a b = true) (h2 : strLe b c = true) :
    strLe a c = true := by
  induction a generalizing b c with
  | nil => rfl
  | cons x xs ih =>
    match b, c with
    | [], _ => simp [strLe] at h1
    | _ :: _, [] => simp [strLe] at h2
    | y :: ys, z :: zs =>
      by_cases hxy : x = y <;> by_cases hyz : y = z
      · subst hxy; subst hyz
        rw [strLe, if_pos rfl] at h1 h2 ⊢
        exact ih ys zs h1 h2
      · subst hxy
        rw [strLe, if_pos rfl] at h1
        rw [strLe, if_neg hyz] at h2 ⊢
        exact h2
      · subst hyz
        rw [strLe, if_neg hxy] at h1
        rw [strLe, if_neg hxy]
        exact h1
      · rw [strLe, if_neg hxy] at h1
        rw [strLe, if_neg hyz] at h2
        simp only [decide_eq_true_eq] at h1 h2
        have hxz : x < z := lt_trans h1 h2
        rw [strLe, if_neg (ne_of_lt hxz)]
        simpa using hxz

theorem byStartedDate_total (a b : Str) : byStartedDate a b || byStartedDate b a := by
  unfold byStartedDate
  rcases strLe_total (field (parseCsvLine a) 2) (field (parseCsvLine b) 2) with h | h <;>
    simp [h]

theorem byStartedDate_trans (a b c : Str) (h1 : byStartedDate a b) (h2 : byStartedDate b c) :
    byStartedDate a c := by
  unfold byStartedDate at *
  exact strLe_trans _ _ _ h1 h2

/-! ### Lemmas about the validate step and the header line -/

theorem validateStep_ok (csvData : Str) (R : List Str)
    (h : validateStep csvData = .ok R) :
    R = ((splitLines (trim csvData)).drop 1).filter (fun l => !(trim l).isEmpty) ∧
      headerOf csvData ≠ [] := by
  simp only [validateStep] at h
  split at h
  · exact absurd h (by simp)
  · next hcond =>
    refine ⟨(Except.ok.inj h).symm, ?_⟩
    intro hnil
    apply hcond
    unfold headerOf at hnil
    rw [hnil]
    decide

theorem validate_rows (csvData : Str) (R : List Str) (h : validateStep csvData = .ok R) :
    ∀ r ∈ R, '\n' ∉ r ∧ (trim r).isEmpty = false := by
  obtain ⟨hR, -⟩ := validateStep_ok csvData R h
  subst hR
  intro r hr
  have h1 := List.of_mem_filter hr
  have h2 : r ∈ (splitLines (trim csvData)).drop 1 := List.mem_of_mem_filter hr
  have h3 : r ∈ splitLines (trim csvData) :=
    (List.drop_sublist 1 _).subset h2
  exact ⟨splitLines_no_newline _ r h3, by simpa using h1⟩

theorem headerOf_no_newline (csvData : Str) : '\n' ∉ headerOf csvData := by
  unfold headerOf
  match hs : splitLines (trim csvData) with
  | [] => exact absurd hs (splitLines_ne_nil _)
  | x :: xs =>
    simp only [List.headD_cons]
    exact splitLines_no_newline _ x (by rw [hs]; simp)

theorem dropWhile_head_not (p : Char → Bool) (l : Str) :
    l.dropWhile p = [] ∨ ∃ c cs, l.dropWhile p = c :: cs ∧ p c = false := by
  induction l with
  | nil => exact Or.inl rfl
  | cons c cs ih =>
    rw [List.dropWhile_cons]
    by_cases hc : p c = true
    · simpa [hc] using ih
    · exact Or.inr ⟨c, cs, by simp [hc], by simpa using hc⟩

theorem trim_head_not_ws (s : Str) :
    trim s = [] ∨ ∃ c cs, trim s = c :: cs ∧ isWS c = false := by
  unfold trim trimLeft
  exact dropWhile_head_not isWS (trimRight s)

theorem headerOf_shape (csvData : Str) (h : headerOf csvData ≠ []) :
    ∃ c cs, headerOf csvData = c :: cs ∧ isWS c = false := by
  unfold headerOf at *
  rcases trim_head_not_ws csvData with ht | ⟨c, cs, ht, hc⟩
  · rw [ht] at h
    simp [splitLines] at h
  · rw [ht] at *
    have hcn : ¬ c = '\n' := fun e => by subst e; simp [isWS] at hc
    rw [splitLines_cons_ne c cs hcn]
    simp only [List.headD_cons]
    exact ⟨c, (splitLines cs).headD [], rfl, hc⟩

/-! ### Characterizations of the merge step -/

theorem mergeStep_newDataLines (csvData : Str) (R : List Str) (ex : Str) (sha : Option Str) :
    (mergeStep csvData R ex sha).newDataLines =
      R.filter (fun line =>
        !((((existingLinesOf ex).drop 1).map fingerprint).contains (fingerprint line))) := rfl

theorem mergeStep_allDataLines (csvData : Str) (R : List Str) (ex : Str) (sha : Option Str) :
    (mergeStep csvData R ex sha).allDataLines =
      ((existingLinesOf ex).drop 1 ++ (mergeStep csvData R ex sha).newDataLines).mergeSort
        byStartedDate := rfl

theorem mergeStep_newRowCount (csvData : Str) (R : List Str) (ex : Str) (sha : Option Str) :
    (mergeStep csvData R ex sha).newRowCount =
      (mergeStep csvData R ex sha).newDataLines.length := rfl

theorem mergeStep_totalRowCount (csvData : Str) (R : List Str) (ex : Str) (sha : Option Str) :
    (mergeStep csvData R ex sha).totalRowCount =
      (mergeStep csvData R ex sha).allDataLines.length := rfl

/-- The header actually written by the merge step. -/
def mergedHeader (csvData : Str) (ex : Str) : Str :=
  let existingLines := existingLinesOf ex
  let existingHeader :=
    if existingLines.length > 0 then existingLines.headD [] else headerOf csvData
  if existingHeader.isEmpty then headerOf csvData else existingHeader

theorem mergeStep_csv (csvData : Str) (R : List Str) (ex : Str) (sha : Option Str) :
    (mergeStep csvData R ex sha).csv =
      joinLines (mergedHeader csvData ex :: (mergeStep csvData R ex sha).allDataLines)
        ++ ['\n'] := rfl

theorem existingLinesOf_nil : existingLinesOf [] = [] := rfl

theorem mergeStep_empty_newDataLines (csvData : Str) (R : List Str) (sha : Option Str) :
    (mergeStep csvData R [] sha).newDataLines = R := by
  rw [mergeStep_newDataLines, existingLinesOf_nil]
  simp [List.contains]

theorem mergeStep_empty_allDataLines (csvData : Str) (R : List Str) (sha : Option Str) :
    (mergeStep csvData R [] sha).allDataLines = R.mergeSort byStartedDate := by
  rw [mergeStep_allDataLines, existingLinesOf_nil, mergeStep_empty_newDataLines]
  simp

theorem mergedHeader_empty (csvData : Str) : mergedHeader csvData [] = headerOf csvData := by
  simp [mergedHeader, existingLinesOf_nil]

/-- C1 helper: the merged output of a merge into the empty store. -/
theorem mergeStep_empty_csv (csvData : Str) (R : List Str) (sha : Option Str) :
    (mergeStep csvData R [] sha).csv =
      joinLines (headerOf csvData :: R.mergeSort byStartedDate) ++ ['\n'] := by
  rw [mergeStep_csv, mergedHeader_empty, mergeStep_empty_allDataLines]

/-- Trimming the merged output strips exactly the final newline plus any
trailing whitespace of the last data line (the header starts with a
non-whitespace character, and every data line has non-blank trim). -/
theorem trim_mergedCsv (hdr : Str) (S : List Str)
    (hhdr : ∃ c cs, hdr = c :: cs ∧ isWS c = false)
    (hS : ∀ x ∈ S, (trim x).isEmpty = false) :
    trim (joinLines (hdr :: S) ++ ['\n']) = joinLines (mapLast trimRight (hdr :: S)) := by
  obtain ⟨c, cs, rfl, hc⟩ := hhdr
  rw [trim_append_ws _ ['\n'] (by decide)]
  have hlast : ∃ l, ((c :: cs) :: S).getLast? = some l ∧ trimRight l ≠ [] := by
    match S with
    | [] =>
      refine ⟨c :: cs, by simp, ?_⟩
      rw [trimRight_cons c cs (by simp [hc])]
      simp
    | s :: S' =>
      obtain ⟨l, hl⟩ : ∃ l, (s :: S').getLast? = some l :=
        ⟨(s :: S').getLast (by simp), List.getLast?_eq_getLast _ _⟩
      refine ⟨l, by rw [List.getLast?_cons_cons]; exact hl, ?_⟩
      apply trimRight_ne_nil_of_trim
      have := hS l (List.mem_of_getLast?_eq_some hl)
      intro he
      rw [he] at this
      simp at this
  obtain ⟨l, hl, htr⟩ := hlast
  show trimLeft (trimRight (joinLines ((c :: cs) :: S))) = _
  rw [trimRight_joinLines _ l hl htr]
  match S with
  | [] =>
    rw [mapLast, joinLines, trimRight_cons c cs (by simp [hc]),
      trimLeft_cons c _ (by simp [hc])]
  | s :: S' =>
    rw [mapLast_cons trimRight (c :: cs) (s :: S') (by simp),
      joinLines_cons _ _ (mapLast_ne_nil trimRight (s :: S') (by simp)),
      List.cons_append, trimLeft_cons c _ (by simp [hc])]

/-- **C1**: Idempotent dedup.  For every upload accepted by the validate
step, merging its rows into the empty store and then merging the same rows
again into the resulting content yields `newRowCount = 0` on the second
merge and an unchanged `totalRowCount`. -/
theorem c1_idempotent_dedup (csvData : Str) (R : List Str) (sha1 sha2 : Option Str)
    (hok : validateStep csvData = .ok R) :
    (mergeStep csvData R (mergeStep csvData R [] sha1).csv sha2).newRowCount = 0 ∧
    (mergeStep csvData R (mergeStep csvData R [] sha1).csv sha2).totalRowCount =
      (mergeStep csvData R [] sha1).totalRowCount := by
  obtain ⟨-, hhd⟩ := validateStep_ok csvData R hok
  have hrows := validate_rows csvData R hok
  have hshape := headerOf_shape csvData hhd
  have hcsv1 := mergeStep_empty_csv csvData R sha1
  set S := R.mergeSort byStartedDate with hSdef
  have hSm : ∀ x ∈ S, x ∈ R := fun x hx => List.mem_mergeSort.mp hx
  have hexne : ((mergeStep csvData R [] sha1).csv).isEmpty = false := by
    rw [hcsv1]
    simp
  have htrim : trim ((mergeStep csvData R [] sha1).csv) =
      joinLines (mapLast trimRight (headerOf csvData :: S)) := by
    rw [hcsv1]
    exact trim_mergedCsv _ S hshape (fun x hx => (hrows x (hSm x hx)).2)
  have hexist : existingLinesOf ((mergeStep csvData R [] sha1).csv) =
      mapLast trimRight (headerOf csvData :: S) := by
    unfold existingLinesOf
    rw [if_neg (by rw [hexne]; simp), htrim]
    apply splitLines_joinLines _ (mapLast_ne_nil trimRight _ (by simp))
    intro l hl
    rcases mem_mapLast trimRight _ l hl with hmem | ⟨y, hy, rfl⟩
    · rcases List.mem_cons.mp hmem with rfl | hmem
      · exact headerOf_no_newline csvData
      · exact (hrows l (hSm l hmem)).1
    · rcases List.mem_cons.mp hy with rfl | hy
      · intro hc2
        exact headerOf_no_newline csvData (mem_of_mem_trimRight _ _ hc2)
      · intro hc2
        exact (hrows y (hSm y hy)).1 (mem_of_mem_trimRight _ _ hc2)
  have htot1 : (mergeStep csvData R [] sha1).totalRowCount = S.length := by
    rw [mergeStep_totalRowCount, mergeStep_empty_allDataLines]
  match hS0 : S with
  | [] =>
    have hR : R = [] := by
      have hlen : (R.mergeSort byStartedDate).length = R.length := List.length_mergeSort R
      rw [← hSdef] at hlen
      exact List.length_eq_zero.mp (by simpa using hlen.symm)
    have hnew : (mergeStep csvData R (mergeStep csvData R [] sha1).csv sha2).newDataLines
        = [] := by
      rw [mergeStep_newDataLines, hR]
      rfl
    refine ⟨?_, ?_⟩
    · rw [mergeStep_newRowCount, hnew]
      rfl
    · rw [mergeStep_totalRowCount, mergeStep_allDataLines, hnew, hexist, htot1]
      simp [mapLast]
  | s :: S' =>
    have hdata : (existingLinesOf ((mergeStep csvData R [] sha1).csv)).drop 1 =
        mapLast trimRight (s :: S') := by
      rw [hexist,
        show mapLast trimRight (headerOf csvData :: s :: S') =
          headerOf csvData :: mapLast trimRight (s :: S') from rfl]
      simp
    have hfps : (mapLast trimRight (s :: S')).map fingerprint =
        (s :: S').map fingerprint :=
      map_mapLast trimRight fingerprint fingerprint_trimRight (s :: S')
    have hnew : (mergeStep csvData R (mergeStep csvData R [] sha1).csv sha2).newDataLines
        = [] := by
      rw [mergeStep_newDataLines, hdata, hfps, List.filter_eq_nil_iff]
      intro r hr
      have hrS : r ∈ s :: S' := by
        rw [hSdef]
        exact List.mem_mergeSort.mpr hr
      have : fingerprint r ∈ (s :: S').map fingerprint :=
        List.mem_map_of_mem fingerprint hrS
      have hcont : (List.map fingerprint (s :: S')).contains (fingerprint r) = true := by
        simp only [List.contains, List.elem_eq_mem, decide_eq_true_eq]
        exact this
      simp [hcont]
      intro hne
      rcases List.mem_map.mp this with ⟨x, hx, hfx⟩
      rcases List.mem_cons.mp hx with rfl | hx
      · exact absurd hfx.symm hne
      · exact ⟨x, hx, hfx⟩
    refine ⟨?_, ?_⟩
    · rw [mergeStep_newRowCount, hnew]
      rfl
    · rw [mergeStep_totalRowCount, mergeStep_allDataLines, hnew, hdata, htot1]
      rw [List.append_nil, List.length_mergeSort, length_mapLast]

theorem count_perm (l₁ l₂ : List Str) (h : l₁.Perm l₂) (a : Str) :
    l₁.count a = l₂.count a := h.countP_eq _

theorem count_filter_of_pos (p : Str → Bool) (l : List Str) (x : Str) (h : p x = true) :
    (l.filter p).count x = l.count x := by
  induction l with
  | nil => rfl
  | cons y ys ih =>
    rw [List.filter_cons]
    by_cases hy : p y = true
    · rw [if_pos hy, List.count_cons, List.count_cons, ih]
    · rw [if_neg hy, ih, List.count_cons]
      by_cases hxy : y = x
      · subst hxy
        exact absurd h hy
      · simp [hxy]

theorem mem_existingLinesOf (ex : Str) : ∀ l ∈ existingLinesOf ex, '\n' ∉ l := by
  unfold existingLinesOf
  split
  · simp
  · exact splitLines_no_newline _

theorem mergedHeader_no_newline (csvData ex : Str) : '\n' ∉ mergedHeader csvData ex := by
  have hhd : '\n' ∉ ((existingLinesOf ex).headD []) := by
    match he : existingLinesOf ex with
    | [] => simp
    | x :: xs =>
      simp only [List.headD_cons]
      exact mem_existingLinesOf ex x (by rw [he]; simp)
  simp only [mergedHeader]
  split
  · split
    · exact headerOf_no_newline csvData
    · exact hhd
  · split
    · exact headerOf_no_newline csvData
    · exact headerOf_no_newline csvData

theorem mergeStep_newDataLines_subset (csvData : Str) (R : List Str) (ex : Str)
    (sha : Option Str) : ∀ l ∈ (mergeStep csvData R ex sha).newDataLines, l ∈ R := by
  rw [mergeStep_newDataLines]
  intro l hl
  exact List.mem_of_mem_filter hl

/-- Re-splitting the merged output: the lines after the header (excluding
the empty remnant after the trailing newline) are exactly the merge's
sorted data lines. -/
theorem mergeStep_dataLines (csvData : Str) (R : List Str) (ex : Str) (sha : Option Str)
    (hnl : ∀ r ∈ R, '\n' ∉ r) :
    ((splitLines ((mergeStep csvData R ex sha).csv)).drop 1).dropLast =
      (mergeStep csvData R ex sha).allDataLines := by
  rw [mergeStep_csv, splitLines_concat_nl,
    splitLines_joinLines _ (by simp) ?nonl]
  case nonl =>
    intro l hl
    rcases List.mem_cons.mp hl with rfl | hl
    · exact mergedHeader_no_newline csvData ex
    · rw [mergeStep_allDataLines] at hl
      rcases List.mem_append.mp (List.mem_mergeSort.mp hl) with hl | hl
      · exact mem_existingLinesOf ex l ((List.drop_sublist 1 _).subset hl)
      · exact hnl l (mergeStep_newDataLines_subset csvData R ex sha l hl)
  simp

/-- **C6**: Chronological invariant.  For every merge of a validated
upload, the data lines of the merged output (the lines after the header)
are non-decreasing by their Started Date field (field index 2) under
lexicographic string comparison. -/
theorem c6_chronological_invariant (csvData existingContent : Str) (R : List Str)
    (sha : Option Str) (hok : validateStep csvData = .ok R) :
    (((splitLines ((mergeStep csvData R existingContent sha).csv)).drop 1).dropLast).Pairwise
      (fun a b => strLe (field (parseCsvLine a) 2) (field (parseCsvLine b) 2) = true) := by
  have hrows := validate_rows csvData R hok
  rw [mergeStep_dataLines csvData R existingContent sha (fun r hr => (hrows r hr).1),
    mergeStep_allDataLines]
  have hs : ((((existingLinesOf existingContent).drop 1 ++
      (mergeStep csvData R existingContent sha).newDataLines).mergeSort
        byStartedDate).Pairwise (fun a b => byStartedDate a b = true)) :=
    List.sorted_mergeSort byStartedDate_trans byStartedDate_total
      ((existingLinesOf existingContent).drop 1 ++
        (mergeStep csvData R existingContent sha).newDataLines)
  exact hs.imp (fun h => h)

/-- Witness data: a minimal validated upload. -/
def sampleCsv : Str :=
  ("Type,Amount,Started Date\nb,x,2024-02-01,c,d,5\na,x,2024-01-01,c,d,6").toList

/-- The data rows of `sampleCsv`, as returned by the validate step. -/
def sampleRows : List Str :=
  [("b,x,2024-02-01,c,d,5").toList, ("a,x,2024-01-01,c,d,6").toList]

/-- Witness for C1: the concrete double merge of `sampleCsv` adds nothing
the second time and keeps the total. -/
theorem c1_idempotent_dedup_witness :
    (mergeStep sampleCsv sampleRows (mergeStep sampleCsv sampleRows [] none).csv
      none).newRowCount = 0 ∧
    (mergeStep sampleCsv sampleRows (mergeStep sampleCsv sampleRows [] none).csv
      none).totalRowCount = (mergeStep sampleCsv sampleRows [] none).totalRowCount :=
  c1_idempotent_dedup sampleCsv sampleRows none none (by rfl)

/-- Witness for C6 at the concrete upload `sampleCsv` over an empty store. -/
theorem c6_chronological_invariant_witness :
    (((splitLines ((mergeStep sampleCsv sampleRows [] none).csv)).drop 1).dropLast).Pairwise
      (fun a b => strLe (field (parseCsvLine a) 2) (field (parseCsvLine b) 2) = true) :=
  c6_chronological_invariant sampleCsv [] sampleRows none (by rfl)

/-- **C10** (implicit): the merge step deduplicates uploaded rows only
against the existing store's fingerprint set, never against each other.
If the upload contains two data lines `a` and `b` (at distinct positions)
sharing a fingerprint absent from the existing content, both are kept in
the merged output with their full multiplicity and both count toward
`newRowCount` and `totalRowCount`. -/
theorem c10_intra_upload_duplicates_kept (csvData existingContent : Str) (sha : Option Str)
    (R pre mid post : List Str) (a b : Str)
    (hR : R = pre ++ a :: mid ++ b :: post)
    (hnl : ∀ r ∈ R, '\n' ∉ r)
    (hfp : fingerprint b = fingerprint a)
    (habsent : fingerprint a ∉ ((existingLinesOf existingContent).drop 1).map fingerprint) :
    (((splitLines ((mergeStep csvData R existingContent sha).csv)).drop 1).dropLast).count a
        = R.count a ∧
    (((splitLines ((mergeStep csvData R existingContent sha).csv)).drop 1).dropLast).count b
        = R.count b ∧
    2 ≤ (mergeStep csvData R existingContent sha).newRowCount ∧
    ((existingLinesOf existingContent).drop 1).length + 2 ≤
      (mergeStep csvData R existingContent sha).totalRowCount := by
  have hconta : ((((existingLinesOf existingContent).drop 1).map fingerprint).contains
      (fingerprint a)) = false := by
    simp only [List.contains, List.elem_eq_mem]
    exact decide_eq_false habsent
  have hcontb : ((((existingLinesOf existingContent).drop 1).map fingerprint).contains
      (fingerprint b)) = false := by
    rw [hfp]
    exact hconta
  have hdl := mergeStep_dataLines csvData R existingContent sha hnl
  have hperm : ((mergeStep csvData R existingContent sha).allDataLines).Perm
      ((existingLinesOf existingContent).drop 1 ++
        (mergeStep csvData R existingContent sha).newDataLines) := by
    rw [mergeStep_allDataLines]
    exact List.mergeSort_perm _ _
  have hcount : ∀ x : Str,
      ((((existingLinesOf existingContent).drop 1).map fingerprint).contains
        (fingerprint x)) = false →
      (((splitLines ((mergeStep csvData R existingContent sha).csv)).drop 1).dropLast).count x
        = R.count x := by
    intro x hx
    rw [hdl, count_perm _ _ hperm x, List.count_append]
    have hzero : ((existingLinesOf existingContent).drop 1).count x = 0 := by
      rw [List.count_eq_zero]
      intro hmem
      have hm : fingerprint x ∈ ((existingLinesOf existingContent).drop 1).map fingerprint :=
        List.mem_map_of_mem fingerprint hmem
      have hct : ((((existingLinesOf existingContent).drop 1).map fingerprint).contains
          (fingerprint x)) = true := by
        simp only [List.contains, List.elem_eq_mem]
        exact decide_eq_true hm
      rw [hct] at hx
      exact absurd hx (by decide)
    have hpx : (fun line => !((((existingLinesOf existingContent).drop 1).map
        fingerprint).contains (fingerprint line))) x = true := by
      show (!((((existingLinesOf existingContent).drop 1).map fingerprint).contains
        (fingerprint x))) = true
      rw [hx]
      rfl
    rw [hzero, mergeStep_newDataLines, count_filter_of_pos _ R x hpx]
    exact Nat.zero_add _
  have hlen2 : 2 ≤ (mergeStep csvData R existingContent sha).newDataLines.length := by
    rw [mergeStep_newDataLines, hR]
    simp only [List.filter_append, List.filter_cons, hconta, hcontb, Bool.not_false,
      if_true, List.length_append, List.length_cons]
    omega
  refine ⟨hcount a hconta, hcount b hcontb, ?_, ?_⟩
  · rw [mergeStep_newRowCount]
    exact hlen2
  · rw [mergeStep_totalRowCount, mergeStep_allDataLines, List.length_mergeSort,
      List.length_append]
    omega

/-- Witness for C10: two textually identical rows in one upload, store
empty — both survive the merge. -/
theorem c10_intra_upload_duplicates_kept_witness :
    (((splitLines ((mergeStep sampleCsv
        [("x,p,2024-01-01,c,d,5").toList, ("x,p,2024-01-01,c,d,5").toList] [] none).csv)).drop
          1).dropLast).count (("x,p,2024-01-01,c,d,5").toList)
      = ([("x,p,2024-01-01,c,d,5").toList, ("x,p,2024-01-01,c,d,5").toList].count
          (("x,p,2024-01-01,c,d,5").toList)) ∧
    (((splitLines ((mergeStep sampleCsv
        [("x,p,2024-01-01,c,d,5").toList, ("x,p,2024-01-01,c,d,5").toList] [] none).csv)).drop
          1).dropLast).count (("x,p,2024-01-01,c,d,5").toList)
      = ([("x,p,2024-01-01,c,d,5").toList, ("x,p,2024-01-01,c,d,5").toList].count
          (("x,p,2024-01-01,c,d,5").toList)) ∧
    2 ≤ (mergeStep sampleCsv
        [("x,p,2024-01-01,c,d,5").toList, ("x,p,2024-01-01,c,d,5").toList] [] none).newRowCount ∧
    ((existingLinesOf []).drop 1).length + 2 ≤
      (mergeStep sampleCsv
        [("x,p,2024-01-01,c,d,5").toList, ("x,p,2024-01-01,c,d,5").toList] [] none).totalRowCount :=
  c10_intra_upload_duplicates_kept sampleCsv [] none
    [("x,p,2024-01-01,c,d,5").toList, ("x,p,2024-01-01,c,d,5").toList]
    [] [] [] (("x,p,2024-01-01,c,d,5").toList) (("x,p,2024-01-01,c,d,5").toList)
    rfl (by decide) rfl (by simp [existingLinesOf_nil])

/-- **C5**: the fingerprint is the line's Type (field 0), Started Date
(field 2), Description (field 4) and Amount (field 5) joined with `|`;
two lines agreeing on those four fields have equal fingerprints, and an
uploaded line agreeing with a line already in the store is excluded from
the merge's new rows regardless of every other field. -/
theorem c5_fingerprint_composition (csvData existingContent : Str) (sha : Option Str)
    (R : List Str) (e n : Str)
    (he : e ∈ (existingLinesOf existingContent).drop 1)
    (h0 : field (parseCsvLine e) 0 = field (parseCsvLine n) 0)
    (h2 : field (parseCsvLine e) 2 = field (parseCsvLine n) 2)
    (h4 : field (parseCsvLine e) 4 = field (parseCsvLine n) 4)
    (h5 : field (parseCsvLine e) 5 = field (parseCsvLine n) 5) :
    fingerprint n = field (parseCsvLine n) 0 ++ '|' :: field (parseCsvLine n) 2
        ++ '|' :: field (parseCsvLine n) 4 ++ '|' :: field (parseCsvLine n) 5 ∧
    fingerprint e = fingerprint n ∧
    n ∉ (mergeStep csvData R existingContent sha).newDataLines := by
  have hfp : fingerprint e = fingerprint n := by
    unfold fingerprint fingerprintFields
    rw [h0, h2, h4, h5]
  refine ⟨rfl, hfp, ?_⟩
  intro hmem
  rw [mergeStep_newDataLines] at hmem
  have hin : fingerprint n ∈ ((existingLinesOf existingContent).drop 1).map fingerprint := by
    rw [← hfp]
    exact List.mem_map_of_mem fingerprint he
  have hpred := List.of_mem_filter hmem
  simp only [] at hpred
  have hct : ((((existingLinesOf existingContent).drop 1).map fingerprint).contains
      (fingerprint n)) = true := by
    simp only [List.contains, List.elem_eq_mem]
    exact decide_eq_true hin
  rw [hct] at hpred
  exact absurd hpred (by decide)

/-- Witness for C5: store line and uploaded line agree on Type, Started
Date, Description and Amount but differ in product, completed date, fee,
currency, state and balance; the upload is dropped as a duplicate. -/
theorem c5_fingerprint_composition_witness :
    fingerprint (("Card Payment,Savings,2024-01-01,y,Tesco,5.00,9.99,USD,REVERTED,20").toList)
      = field (parseCsvLine (("Card Payment,Savings,2024-01-01,y,Tesco,5.00,9.99,USD,REVERTED,20").toList)) 0
        ++ '|' :: field (parseCsvLine (("Card Payment,Savings,2024-01-01,y,Tesco,5.00,9.99,USD,REVERTED,20").toList)) 2
        ++ '|' :: field (parseCsvLine (("Card Payment,Savings,2024-01-01,y,Tesco,5.00,9.99,USD,REVERTED,20").toList)) 4
        ++ '|' :: field (parseCsvLine (("Card Payment,Savings,2024-01-01,y,Tesco,5.00,9.99,USD,REVERTED,20").toList)) 5 ∧
    fingerprint (("Card Payment,Current,2024-01-01,x,Tesco,5.00,0.50,GBP,COMPLETED,10").toList)
      = fingerprint (("Card Payment,Savings,2024-01-01,y,Tesco,5.00,9.99,USD,REVERTED,20").toList) ∧
    (("Card Payment,Savings,2024-01-01,y,Tesco,5.00,9.99,USD,REVERTED,20").toList) ∉
      (mergeStep sampleCsv
        [("Card Payment,Savings,2024-01-01,y,Tesco,5.00,9.99,USD,REVERTED,20").toList]
        (("Type,Amount,Started Date\nCard Payment,Current,2024-01-01,x,Tesco,5.00,0.50,GBP,COMPLETED,10").toList)
        none).newDataLines :=
  c5_fingerprint_composition sampleCsv
    (("Type,Amount,Started Date\nCard Payment,Current,2024-01-01,x,Tesco,5.00,0.50,GBP,COMPLETED,10").toList)
    none
    [("Card Payment,Savings,2024-01-01,y,Tesco,5.00,9.99,USD,REVERTED,20").toList]
    (("Card Payment,Current,2024-01-01,x,Tesco,5.00,0.50,GBP,COMPLETED,10").toList)
    (("Card Payment,Savings,2024-01-01,y,Tesco,5.00,9.99,USD,REVERTED,20").toList)
    (by decide) (by decide) (by decide) (by decide) (by decide)

/-! ### Step lemmas for the parser character loop -/

theorem parseAux_nil (cur : Str) (q : Bool) : parseAux [] cur q = [trim cur] := rfl

theorem parseAux_quote_step (rest cur : Str) (q : Bool) :
    parseAux ('"' :: rest) cur q = parseAux rest cur (!q) := by
  rw [parseAux, if_pos rfl]

theorem parseAux_comma_step (rest cur : Str) :
    parseAux (',' :: rest) cur false = trim cur :: parseAux rest [] false := by
  rw [parseAux, if_neg (by decide), if_pos (by decide)]

theorem serializeRow_cons (f : Str) (tail : List Str) (h : tail ≠ []) :
    serializeRow (f :: tail) =
      (if f.contains ',' then '"' :: f ++ ['"'] else f) ++ ',' :: serializeRow tail := by
  match tail with
  | g :: rest => rfl

theorem not_contains_comma (f : Str) (h : ¬ f.contains ',' = true) :
    ∀ c ∈ f, ¬ c = ',' := by
  intro c hc he
  subst he
  apply h
  simp only [List.contains, List.elem_eq_mem]
  exact decide_eq_true hc

/-- Modelled from the spec (round-trip): parsing the spec's stable
re-serialization of a row recovers the row exactly, provided each field is
already trimmed and quote-free (which is what `parseCsvLine` produces). -/
theorem parse_serializeRow : ∀ (fields : List Str), fields ≠ [] →
    (∀ f ∈ fields, trim f = f ∧ '"' ∉ f) →
    parseCsvLine (serializeRow fields) = fields
  | [], h, _ => absurd rfl h
  | [f], _, hf => by
    obtain ⟨htr, hq⟩ := hf f (by simp)
    show parseAux (serializeRow [f]) [] false = [f]
    rw [show serializeRow [f] = if f.contains ',' then '"' :: f ++ ['"'] else f from rfl]
    by_cases hcm : f.contains ',' = true
    · rw [if_pos hcm]
      rw [show (('"' :: f ++ ['"'] : Str)) = '"' :: (f ++ ['"']) from rfl]
      rw [parseAux_quote_step, Bool.not_false]
      rw [parseAux_quoted f ['"'] [] (fun c hc => fun e => hq (e ▸ hc))]
      rw [List.nil_append, parseAux_quote_step, Bool.not_true, parseAux_nil, htr]
    · rw [if_neg hcm]
      have hstep : parseAux (f ++ []) [] false = parseAux [] ([] ++ f) false :=
        parseAux_plain f [] [] false
          (fun c hc => ⟨fun e => hq (e ▸ hc), not_contains_comma f hcm c hc⟩)
      rw [List.append_nil, List.nil_append] at hstep
      rw [hstep, parseAux_nil, htr]
  | f :: g :: rest, _, hf => by
    obtain ⟨htr, hq⟩ := hf f (by simp)
    have ih := parse_serializeRow (g :: rest) (by simp)
      (fun x hx => hf x (List.mem_cons_of_mem f hx))
    rw [show parseCsvLine (serializeRow (g :: rest)) =
      parseAux (serializeRow (g :: rest)) [] false from rfl] at ih
    show parseAux (serializeRow (f :: g :: rest)) [] false = _
    rw [serializeRow_cons f (g :: rest) (by simp)]
    by_cases hcm : f.contains ',' = true
    · rw [if_pos hcm]
      rw [show (('"' :: f ++ ['"']) ++ ',' :: serializeRow (g :: rest) : Str) =
        '"' :: (f ++ '"' :: ',' :: serializeRow (g :: rest)) by simp]
      rw [parseAux_quote_step, Bool.not_false]
      rw [parseAux_quoted f ('"' :: ',' :: serializeRow (g :: rest)) []
        (fun c hc => fun e => hq (e ▸ hc))]
      rw [List.nil_append, parseAux_quote_step, Bool.not_true, parseAux_comma_step, htr, ih]
    · rw [if_neg hcm]
      have hstep : parseAux (f ++ ',' :: serializeRow (g :: rest)) [] false =
          parseAux (',' :: serializeRow (g :: rest)) ([] ++ f) false :=
        parseAux_plain f (',' :: serializeRow (g :: rest)) [] false
          (fun c hc => ⟨fun e => hq (e ▸ hc), not_contains_comma f hcm c hc⟩)
      rw [List.nil_append] at hstep
      rw [hstep, parseAux_comma_step, htr, ih]

/-- **C4**: fingerprint stability round-trip.  For every row (a list of
trimmed, quote-free field strings), serializing it with the spec-modelled
stable serializer and re-parsing it yields the same fields, so the
fingerprint — built from the exact field texts, the amount text included —
is unchanged by the round-trip (trailing zeros in the amount text are
preserved verbatim). -/
theorem c4_fingerprint_roundtrip (fields : List Str) (hne : fields ≠ [])
    (hf : ∀ f ∈ fields, trim f = f ∧ '"' ∉ f) :
    parseCsvLine (serializeRow fields) = fields ∧
    fingerprintFields (parseCsvLine (serializeRow fields)) = fingerprintFields fields := by
  have main := parse_serializeRow fields hne hf
  exact ⟨main, by rw [main]⟩

/-- Witness for C4: a full 10-field row whose description contains the
delimiter and whose amount text `5.10` carries a trailing zero. -/
theorem c4_fingerprint_roundtrip_witness :
    parseCsvLine (serializeRow
      [("Card Payment").toList, ("Current").toList, ("2024-01-02 10:00:00").toList,
       ("2024-01-03").toList, ("Tesco, London").toList, ("5.10").toList, ("0.00").toList,
       ("GBP").toList, ("COMPLETED").toList, ("100.00").toList]) =
      [("Card Payment").toList, ("Current").toList, ("2024-01-02 10:00:00").toList,
       ("2024-01-03").toList, ("Tesco, London").toList, ("5.10").toList, ("0.00").toList,
       ("GBP").toList, ("COMPLETED").toList, ("100.00").toList] ∧
    fingerprintFields (parseCsvLine (serializeRow
      [("Card Payment").toList, ("Current").toList, ("2024-01-02 10:00:00").toList,
       ("2024-01-03").toList, ("Tesco, London").toList, ("5.10").toList, ("0.00").toList,
       ("GBP").toList, ("COMPLETED").toList, ("100.00").toList])) =
      fingerprintFields
      [("Card Payment").toList, ("Current").toList, ("2024-01-02 10:00:00").toList,
       ("2024-01-03").toList, ("Tesco, London").toList, ("5.10").toList, ("0.00").toList,
       ("GBP").toList, ("COMPLETED").toList, ("100.00").toList] :=
  c4_fingerprint_roundtrip _ (by decide) (by decide)

/-- **C8**: quoted-field parsing.  A quote toggles "inside quoted field"
mode in which the delimiter is literal, and fields are trimmed after
extraction: a line of the shape `A,"B,C",D` (with `A`, `D` free of quotes
and delimiters and the quoted survey free of quotes) parses to exactly the
three trimmed fields. -/
theorem c8_quoted_field_parsing (A B D : Str)
    (hA : ∀ c ∈ A, ¬ c = '"' ∧ ¬ c = ',') (hB : ∀ c ∈ B, ¬ c = '"')
    (hD : ∀ c ∈ D, ¬ c = '"' ∧ ¬ c = ',') :
    parseCsvLine (A ++ ',' :: '"' :: (B ++ '"' :: ',' :: D)) = [trim A, trim B, trim D] := by
  show parseAux _ [] false = _
  rw [parseAux_plain A (',' :: '"' :: (B ++ '"' :: ',' :: D)) [] false hA, List.nil_append]
  rw [parseAux_comma_step]
  rw [parseAux_quote_step, Bool.not_false]
  rw [parseAux_quoted B ('"' :: ',' :: D) [] hB, List.nil_append]
  rw [parseAux_quote_step, Bool.not_true]
  rw [parseAux_comma_step]
  have hstep : parseAux (D ++ []) [] false = parseAux [] ([] ++ D) false :=
    parseAux_plain D [] [] false hD
  rw [List.append_nil, List.nil_append] at hstep
  rw [hstep, parseAux_nil]

/-- Witness for C8: the spec's own example `A,"B,C",D` parses to the three
fields `A`, `B,C`, `D`. -/
theorem c8_quoted_field_parsing_witness :
    parseCsvLine (("A,\"B,C\",D").toList) = [("A").toList, ("B,C").toList, ("D").toList] := by
  have h := c8_quoted_field_parsing (("A").toList) (("B,C").toList) (("D").toList)
    (by decide) (by decide) (by decide)
  rw [show ((("A,\"B,C\",D").toList : Str)) =
    ("A").toList ++ ',' :: '"' :: (("B,C").toList ++ '"' :: ',' :: ("D").toList) from rfl, h]
  decide

/-! ### The commit step, the retry engine and the pipeline (C2, C7) -/

/-- Counterexample to C2 as stated: the commit step classifies a 409
conflict as an ordinary thrown error, so the engine retries it — a
conflicted first attempt followed by a 201 makes the step succeed, which
contradicts "the step fails on the conflict without retrying it". -/
theorem c2_conflict_retried_counterexample :
    runRetry 3 (List.map commitClassify [409, 201]) = .ok () := rfl

theorem runRetry_isOk_congr {α : Type} : ∀ (n : Nat) (xs ys : List (Except Str α)),
    List.Forall₂ (fun a b => a.isOk = b.isOk) xs ys →
    (runRetry n xs).isOk = (runRetry n ys).isOk
  | _, [], [], _ => rfl
  | n, x :: xs, y :: ys, h => by
    have hxy := List.forall₂_cons.mp h
    obtain ⟨hxy, htail⟩ := hxy
    match x, y with
    | .ok a, .ok b => rfl
    | .ok a, .error e => simp [Except.isOk, Except.toBool] at hxy
    | .error e, .ok b => simp [Except.isOk, Except.toBool] at hxy
    | .error e, .error e' =>
      simp only [runRetry]
      by_cases hn : n ≤ 1
      · rw [if_pos hn, if_pos hn]
        rfl
      · rw [if_neg hn, if_neg hn]
        exact runRetry_isOk_congr (n - 1) xs ys htail

theorem forall₂_isOk_refl (xs : List Nat) :
    List.Forall₂ (fun a b => Except.isOk a = Except.isOk b)
      (xs.map commitClassify) (xs.map commitClassify) := by
  induction xs with
  | nil => exact List.Forall₂.nil
  | cons x xs ih => exact List.Forall₂.cons rfl ih

/-- C2 amended: a 409 conflict is treated exactly like any other non-2xx
commit failure — it consumes the step's retry budget like a transient
error (replacing the 409 by a 500 anywhere in the attempt sequence never
changes whether the step succeeds), and a commit whose attempts all
conflict ends the instance in `errored`; the pipeline is a single pass and
never re-runs fetch/merge/commit after a conflict. -/
theorem c2_amended_conflict_in_retry_budget :
    (∀ (pre post : List Nat) (n : Nat),
      (runRetry n ((pre ++ 409 :: post).map commitClassify)).isOk =
        (runRetry n ((pre ++ 500 :: post).map commitClassify)).isOk) ∧
    (∀ (csvData : Str) (fetchResponses : List GithubFileResponse),
      ∃ msg, runPipeline csvData fetchResponses [409, 409, 409] = .errored msg) := by
  constructor
  · intro pre post n
    apply runRetry_isOk_congr
    rw [List.map_append, List.map_append, List.map_cons, List.map_cons]
    exact List.rel_append (forall₂_isOk_refl pre)
      (List.Forall₂.cons rfl (forall₂_isOk_refl post))
  · intro csvData fetchResponses
    unfold runPipeline
    split
    · next e _ => exact ⟨e, rfl⟩
    · split
      · next e _ => exact ⟨e, rfl⟩
      · have hc : runRetry 3 (List.map commitClassify [409, 409, 409]) =
            Except.error (("GitHub commit failed: ").toList ++ (toString 409).toList) := rfl
        rw [hc]
        exact ⟨_, rfl⟩

/-- A non-404, non-2xx response makes the fetch step throw. -/
theorem fetchClassify_error (st : Nat) (content sha : Str) (h404 : ¬ st = 404)
    (hok : ¬(200 ≤ st ∧ st ≤ 299)) :
    fetchClassify ⟨st, content, sha⟩ =
      .error (("GitHub API error: ").toList ++ (toString st).toList) := by
  unfold fetchClassify
  rw [if_neg h404, if_pos ?pos]
  case pos =>
    cases hb : respOk st with
    | false => rfl
    | true =>
      exfalso
      apply hok
      unfold respOk at hb
      simpa [Bool.and_eq_true, decide_eq_true_eq] using hb

/-- **C7**: the fetch step maps a 404 to a successful empty snapshot with
a null version token; every other non-2xx status makes the attempt fail
with an error that the engine retries (the failure consumes one retry
attempt and the engine moves on to the next). -/
theorem c7_fetch_404_vs_errors :
    (∀ content sha : Str, fetchClassify ⟨404, content, sha⟩ = .ok ⟨[], none⟩) ∧
    (∀ (st : Nat) (content sha : Str), ¬ st = 404 → ¬(200 ≤ st ∧ st ≤ 299) →
      ∃ msg, fetchClassify ⟨st, content, sha⟩ = .error msg) ∧
    (∀ (st : Nat) (content sha : Str) (rest : List GithubFileResponse),
      ¬ st = 404 → ¬(200 ≤ st ∧ st ≤ 299) →
      runRetry 3 (List.map fetchClassify (⟨st, content, sha⟩ :: rest)) =
        runRetry 2 (List.map fetchClassify rest)) := by
  refine ⟨fun content sha => rfl, ?_, ?_⟩
  · intro st content sha h404 hok
    exact ⟨_, fetchClassify_error st content sha h404 hok⟩
  · intro st content sha rest h404 hok
    rw [List.map_cons, fetchClassify_error st content sha h404 hok]
    simp only [runRetry]
    rw [if_neg (by decide)]

/-- Witness for C7: a 404 yields the empty snapshot; a 500 yields an
error; a 500 followed by a 404 still ends in the empty snapshot. -/
theorem c7_fetch_404_vs_errors_witness :
    fetchClassify ⟨404, ("ignored").toList, ("sha1").toList⟩ = .ok ⟨[], none⟩ ∧
    (∃ msg, fetchClassify ⟨500, [], ("sha1").toList⟩ = .error msg) ∧
    runRetry 3 (List.map fetchClassify
        [⟨500, [], ("sha1").toList⟩, ⟨404, [], ("sha1").toList⟩]) =
      runRetry 2 (List.map fetchClassify [⟨404, [], ("sha1").toList⟩]) :=
  ⟨c7_fetch_404_vs_errors.1 (("ignored").toList) (("sha1").toList),
   c7_fetch_404_vs_errors.2.1 500 [] (("sha1").toList) (by decide) (by decide),
   c7_fetch_404_vs_errors.2.2 500 [] (("sha1").toList) [⟨404, [], ("sha1").toList⟩]
     (by decide) (by decide)⟩

/-! ### The upload trigger (C9) -/

/-- **C9**: the upload trigger rejects with HTTP 400 (creating no workflow
instance — the rejected constructor carries none) exactly when the
post-header row count `trim(csv).split('\n').length - 1` is zero; any other
upload is immediately accepted with the opaque instance id and that row
count, independently of the pipeline's own outcome. -/
theorem c9_upload_trigger (csvData instanceId : Str) :
    ((splitLines (trim csvData)).length - 1 = 0 →
      uploadHandler csvData instanceId = .rejected 400 (("CSV is empty").toList)) ∧
    ((splitLines (trim csvData)).length - 1 ≠ 0 →
      uploadHandler csvData instanceId =
        .accepted instanceId ((splitLines (trim csvData)).length - 1)) := by
  constructor
  · intro h0
    unfold uploadHandler
    rw [if_pos (by omega)]
  · intro hne
    unfold uploadHandler
    rw [if_neg (by omega)]

/-- Witness for C9: a header-only upload is rejected with 400 and no
instance, a one-row upload is accepted with row count 1. -/
theorem c9_upload_trigger_witness :
    uploadHandler (("just-a-header").toList) (("instance-1").toList) =
      .rejected 400 (("CSV is empty").toList) ∧
    uploadHandler (("h\nr").toList) (("instance-1").toList) =
      .accepted (("instance-1").toList) 1 :=
  ⟨(c9_upload_trigger (("just-a-header").toList) (("instance-1").toList)).1 (by decide),
   (c9_upload_trigger (("h\nr").toList) (("instance-1").toList)).2 (by decide)⟩

/-! ### Short-line handling (C3) -/

/-- Counterexample to C3 as stated: in the ingest workflow a 2-field data
line passes validation, is merged, appears in the merged content's data
lines, and counts toward `newRowCount` and `totalRowCount`. -/
theorem c3_short_line_merged_counterexample :
    validateStep (("Type,Amount,Started Date\na,b").toList) = .ok [("a,b").toList] ∧
    (parseCsvLine (("a,b").toList)).length < 10 ∧
    (mergeStep (("Type,Amount,Started Date\na,b").toList) [("a,b").toList] []
      none).newRowCount = 1 ∧
    (mergeStep (("Type,Amount,Started Date\na,b").toList) [("a,b").toList] []
      none).totalRowCount = 1 ∧
    ((splitLines ((mergeStep (("Type,Amount,Started Date\na,b").toList) [("a,b").toList]
      [] none).csv)).drop 1).dropLast = [("a,b").toList] := by
  refine ⟨rfl, by decide, rfl, ?_, ?_⟩
  · rw [mergeStep_totalRowCount, mergeStep_empty_allDataLines, List.mergeSort_singleton]
    rfl
  · rw [mergeStep_dataLines _ _ _ _ (by decide), mergeStep_empty_allDataLines,
      List.mergeSort_singleton]

/-- C3 amended: the transaction parsers (`parseRevolutCSV`, and `parseCSV`
which shares the same loop) silently skip a data line that parses to fewer
than 10 fields — it yields no transaction and, the parser being total,
never fails the batch; the ingest workflow's merge applies no such check
and keeps short lines (see the counterexample). -/
theorem c3_amended_short_lines_skipped (text : Str) (pre post : List Str) (l : Str)
    (hsplit : (splitLines (trim text)).drop 1 = pre ++ l :: post)
    (hshort : (parseCsvLine (trim l)).length < 10) :
    lineToTxn l = none ∧
    parseRevolutCSV text = (pre ++ post).filterMap lineToTxn := by
  have hnone : lineToTxn l = none := by
    unfold lineToTxn
    by_cases hemp : (trim l).isEmpty = true
    · rw [if_pos hemp]
    · rw [if_neg hemp, if_pos hshort]
  refine ⟨hnone, ?_⟩
  unfold parseRevolutCSV
  rw [hsplit, List.filterMap_append, List.filterMap_append,
    List.filterMap_cons_none hnone]

/-- Witness for C3 (amended): an upload whose second data line is full
parses to exactly the transactions of its non-short lines. -/
theorem c3_amended_short_lines_skipped_witness :
    lineToTxn (("short,line").toList) = none ∧
    parseRevolutCSV (("Type,Amount,Started Date\nshort,line\nt,p,d1,d2,desc,5,0,GBP,OK,1").toList)
      = [("t,p,d1,d2,desc,5,0,GBP,OK,1").toList].filterMap lineToTxn :=
  c3_amended_short_lines_skipped
    (("Type,Amount,Started Date\nshort,line\nt,p,d1,d2,desc,5,0,GBP,OK,1").toList)
    [] [("t,p,d1,d2,desc,5,0,GBP,OK,1").toList] (("short,line").toList)
    (by rfl) (by decide)

end Ledgr
